import Mathlib

/-
Verification of the MATHION quiz application (src/index.tsx).

The application is a single React component whose state lives in `useState`
hooks and whose behaviour is a handful of event handlers.  We embed it
shallowly:

* the React state hooks become the fields of the structure `AppState`;
* `localStorage` is modelled by the field `storage` holding the single entry
  under the key "mathQuizHighScores" (`StorageContent.missing` = key absent,
  `StorageContent.corrupt` = present but `JSON.parse` throws,
  `StorageContent.table` = a parsed list of entries);
* `window.alert` is modelled by the field `lastAlert`;
* each asynchronous Gemini call is folded into a single atomic transition
  parameterised by its outcome (`FetchResult`); the transient
  `isHintLoading = true` window collapses, so the field is `false` at rest;
* the event handlers become pure functions `AppState -> AppState`, and the
  conditional rendering of `renderContent` (which buttons exist / are
  disabled in which state) becomes the guards of the `step` function.

JavaScript numbers used as counters (`score`, `hintCoins`, timestamps,
high-score entries) are modelled as `Int`; `currentQuestionIndex` is a `Nat`
(it is only ever 0 or incremented; the one JS subtraction
`questions.length - 1` appears inside `x < questions.length - 1`, where Nat
truncation at length = 0 gives the same truth value as the JS value -1).
-/

/-- The `QuizState` union type (src line 22). -/
inductive QuizState
  | idle
  | loading
  | active
  | feedback
  | finished
deriving DecidableEq, Repr

/-- The `Category` union type (src line 23). -/
inductive Category
  | Arithmetic
  | Geometry
  | Algebra
  | Mixed
deriving DecidableEq, Repr

/-- The `Difficulty` union type (src line 24). -/
inductive Difficulty
  | Easy
  | Medium
  | Hard
deriving DecidableEq, Repr

/-- The `Question` interface (src lines 26-29). -/
structure Question where
  question : String
  answer : String
deriving DecidableEq, Repr

/-- The `HighScore` interface (src lines 31-36).  `score` and `date` are JS
numbers, modelled as `Int`. -/
structure HighScore where
  score : Int
  category : Category
  difficulty : Difficulty
  date : Int
deriving DecidableEq, Repr

/-- The feedback record set by `handleAnswerSubmit` (src line 45). -/
structure FeedbackMsg where
  message : String
  correct : Bool
deriving DecidableEq, Repr

/-- Content of the `localStorage` entry under key "mathQuizHighScores":
absent, present but not JSON-parsable (`JSON.parse` throws), or a parsed
array of `HighScore` records.  The falsy empty-string case behaves exactly
like `missing` (the `if (savedScores)` test on src line 57 fails), so it is
folded into `missing`. -/
inductive StorageContent
  | missing
  | corrupt
  | table (scores : List HighScore)
deriving DecidableEq, Repr

/-- Outcome of one asynchronous Gemini call. -/
inductive FetchResult (α : Type)
  | success (val : α)
  | failure
deriving DecidableEq, Repr

/-- The whole component state: one field per `useState` hook (src lines
39-52), plus the `localStorage` model (`storage`) and the `window.alert`
model (`lastAlert`). -/
structure AppState where
  quizState : QuizState
  category : Option Category
  difficulty : Option Difficulty
  questions : List Question
  currentQuestionIndex : Nat
  userAnswer : String
  feedback : Option FeedbackMsg
  score : Int
  hintCoins : Int
  hint : Option String
  isHintLoading : Bool
  hintUsed : Bool
  highScores : List HighScore
  scoreSaved : Bool
  storage : StorageContent
  lastAlert : Option String
deriving DecidableEq, Repr

/-- The initial hook values (src lines 39-52) over a given persistent-storage
content. -/
def initState (c : StorageContent) : AppState :=
  { quizState := .idle
    category := none
    difficulty := none
    questions := []
    currentQuestionIndex := 0
    userAnswer := ""
    feedback := none
    score := 0
    hintCoins := 3
    hint := none
    isHintLoading := false
    hintUsed := false
    highScores := []
    scoreSaved := false
    storage := c
    lastAlert := none }

/-- The mount effect (src lines 54-63): read the entry; if present, parse it
and set `highScores`; a thrown `JSON.parse` is caught and only logged, so a
missing or corrupt entry leaves the state unchanged.  The function is total:
no content makes it raise. -/
def loadEffect (st : AppState) : AppState :=
  match st.storage with
  | .missing => st
  | .corrupt => st
  | .table scores => { st with highScores := scores }

/-- The alert message of the question-generation failure path (src line 115). -/
def generationErrorMsg : String :=
  "Sorry, there was an error generating the quiz. Please try again."

/-- The placeholder hint used when the hint fetch fails (src line 141). -/
def hintApology : String :=
  "Sorry, couldn\x27t get a hint right now."

/-- The `resetQuiz` handler (src lines 177-190).  It does not touch
`highScores`, `storage`, `isHintLoading` or `lastAlert`. -/
def resetQuiz (st : AppState) : AppState :=
  { st with
    quizState := .idle
    category := none
    difficulty := none
    questions := []
    currentQuestionIndex := 0
    userAnswer := ""
    feedback := none
    score := 0
    hintCoins := 3
    hint := none
    hintUsed := false
    scoreSaved := false }

/-- The synchronous prefix of `generateQuestions` (src lines 65-67): enter
`loading` and record the chosen difficulty. -/
def startGenerate (st : AppState) (d : Difficulty) : AppState :=
  { st with quizState := .loading, difficulty := some d }

/-- The completion of `generateQuestions` (src lines 106-117): a successful
response with a non-empty `questions` array installs the questions and
activates the quiz; an empty array throws (src line 111) into the same catch
as a network error, which alerts and calls `resetQuiz`. -/
def finishGenerate (st : AppState) (res : FetchResult (List Question)) : AppState :=
  match res with
  | .success qs =>
      if qs.length > 0 then
        { st with questions := qs, quizState := .active }
      else
        { resetQuiz st with lastAlert := some generationErrorMsg }
  | .failure =>
      { resetQuiz st with lastAlert := some generationErrorMsg }

/-- The `handleGetHint` handler (src lines 124-145), with the asynchronous
call folded in: the guard returns early unless `hintCoins > 0` and the hint
is unused; otherwise the latch and the decrement happen synchronously before
the await, and the fetched text (or the apology on failure) is stored. -/
def handleGetHint (st : AppState) (res : FetchResult String) : AppState :=
  if st.hintCoins ≤ 0 ∨ st.hintUsed then st
  else
    match res with
    | .success text =>
        { st with
          hintUsed := true
          hintCoins := st.hintCoins - 1
          isHintLoading := false
          hint := some text }
    | .failure =>
        { st with
          hintUsed := true
          hintCoins := st.hintCoins - 1
          isHintLoading := false
          hint := some hintApology }

/-- The stored answer of the current question
(`questions[currentQuestionIndex].answer`, src line 151).
`String(correctAnswer)` on a string is the identity. -/
def currentAnswer (st : AppState) : String :=
  (st.questions.getD st.currentQuestionIndex { question := "", answer := "" }).answer

/-- JavaScript `String.prototype.trim`: drop leading and trailing whitespace
characters (modelled over the character list; `Char.isWhitespace` covers the
ASCII whitespace this application produces). -/
def jsTrim (s : String) : String :=
  String.mk ((s.data.dropWhile Char.isWhitespace).reverse.dropWhile Char.isWhitespace).reverse

/-- JavaScript `String.prototype.toLowerCase`, on the ASCII fragment:
lower-case every character. -/
def jsToLower (s : String) : String :=
  String.mk (s.data.map Char.toLower)

/-- The comparison of src line 153: trim both strings, lower-case both,
compare for exact equality. -/
def checkAnswer (userAnswer correctAnswer : String) : Bool :=
  jsToLower (jsTrim userAnswer) == jsToLower (jsTrim correctAnswer)

/-- The `handleAnswerSubmit` handler (src lines 147-162).  The falsy test
`!userAnswer.trim()` on src line 149 is the early return on empty trimmed
input. -/
def handleAnswerSubmit (st : AppState) : AppState :=
  if jsTrim st.userAnswer = "" then st
  else if checkAnswer st.userAnswer (currentAnswer st) then
    { st with
      score := st.score + 1
      feedback := some { message := "Correct!", correct := true }
      quizState := .feedback }
  else
    { st with
      feedback := some { message := "Incorrect! The answer is " ++ currentAnswer st, correct := false }
      quizState := .feedback }

/-- The `handleNextQuestion` handler (src lines 164-175). -/
def handleNextQuestion (st : AppState) : AppState :=
  if st.currentQuestionIndex < st.questions.length - 1 then
    { st with
      feedback := none
      userAnswer := ""
      hint := none
      hintUsed := false
      currentQuestionIndex := st.currentQuestionIndex + 1
      quizState := .active }
  else
    { st with
      feedback := none
      userAnswer := ""
      hint := none
      hintUsed := false
      quizState := .finished }

/-- The sort order of the comparator on src line 196,
`(a, b) => b.score - a.score || b.date - a.date`: `a` may precede `b` iff the
comparator is non-positive, i.e. descending score, ties by descending date. -/
def hsLE (a b : HighScore) : Prop :=
  b.score < a.score ∨ (b.score = a.score ∧ b.date ≤ a.date)

instance : DecidableRel hsLE := fun a b =>
  inferInstanceAs (Decidable (b.score < a.score ∨ (b.score = a.score ∧ b.date ≤ a.date)))

/-- The table update of src lines 195-197: append the new entry, sort with a
stable sort by the comparator (JS `Array.prototype.sort` is stable), keep the
first 10. -/
def savedTable (table : List HighScore) (entry : HighScore) : List HighScore :=
  ((table ++ [entry]).insertionSort hsLE).take 10

/-- The `handleSaveScore` handler (src lines 192-202): early return unless a
category and difficulty are set; otherwise build the entry from the current
score and the clock (`Date.now()`, passed as `now`), update the table, write
it to storage, and set the `scoreSaved` flag. -/
def handleSaveScore (st : AppState) (now : Int) : AppState :=
  match st.category, st.difficulty with
  | some cat, some diff =>
      { st with
        highScores :=
          savedTable st.highScores { score := st.score, category := cat, difficulty := diff, date := now }
        storage :=
          .table (savedTable st.highScores { score := st.score, category := cat, difficulty := diff, date := now })
        scoreSaved := true }
  | _, _ => st

/-- The `handleClearScores` handler (src lines 204-207): empty the in-memory
table and remove the storage entry (`localStorage.removeItem`). -/
def handleClearScores (st : AppState) : AppState :=
  { st with highScores := [], storage := .missing }

/-- User intents and asynchronous completions, as exposed by `renderContent`
(src lines 209-333).  Fetch-dependent events carry the outcome of their
single asynchronous call; `saveScore` carries the value of `Date.now()`. -/
inductive Event
  | loadScores
  | pickCategory (c : Category)
  | backToCategories
  | startQuiz (d : Difficulty)
  | quizFetched (res : FetchResult (List Question))
  | typeAnswer (s : String)
  | submitAnswer
  | getHint (res : FetchResult String)
  | nextQuestion
  | saveScore (now : Int)
  | playAgain
  | clearScores
deriving DecidableEq

/-- One step of the UI state machine.  The guard of each event is the
condition under which `renderContent` shows (and enables) the corresponding
control: category buttons only in `idle` with no category (src line 289),
difficulty buttons and the back button in `idle` with a category (src lines
318-329), the answer form and hint button only in `active` (src line 238),
the save button in `finished` and disabled once `scoreSaved` (src line 280),
the clear button in `idle` with no category and a non-empty table (src
lines 294-305), next/finish in `feedback` (src line 266). -/
def step (st : AppState) : Event → AppState
  | .loadScores => loadEffect st
  | .pickCategory c =>
      if st.quizState = .idle ∧ st.category = none then
        { st with category := some c }
      else st
  | .backToCategories =>
      if st.quizState = .idle ∧ st.category ≠ none then
        { st with category := none }
      else st
  | .startQuiz d =>
      if st.quizState = .idle ∧ st.category ≠ none then
        startGenerate st d
      else st
  | .quizFetched res =>
      if st.quizState = .loading then finishGenerate st res else st
  | .typeAnswer s =>
      if st.quizState = .active then { st with userAnswer := s } else st
  | .submitAnswer =>
      if st.quizState = .active then handleAnswerSubmit st else st
  | .getHint res =>
      if st.quizState = .active then handleGetHint st res else st
  | .nextQuestion =>
      if st.quizState = .feedback then handleNextQuestion st else st
  | .saveScore now =>
      if st.quizState = .finished then
        (if st.scoreSaved then st else handleSaveScore st now)
      else st
  | .playAgain =>
      if st.quizState = .finished then resetQuiz st else st
  | .clearScores =>
      if st.quizState = .idle ∧ st.category = none ∧ st.highScores ≠ [] then
        handleClearScores st
      else st

/-- Run a list of events from the initial state over storage content `c`. -/
def run (c : StorageContent) (es : List Event) : AppState :=
  es.foldl step (initState c)

/-- A question-batch completion respects the requested batch size
(`QUIZ_LENGTH = 5`, src line 20; the provider contract of the spec requests
exactly 5). -/
def eventBounded : Event → Bool
  | .quizFetched (.success qs) => qs.length ≤ 5
  | _ => true

/-- A concrete single-question batch, for witnesses. -/
def demoQuestion : Question :=
  { question := "What is 3 + 4?", answer := "7" }

/-- A concrete `active` session state, for witnesses. -/
def demoActive : AppState :=
  { initState .missing with
    quizState := .active
    category := some .Arithmetic
    difficulty := some .Easy
    questions := [demoQuestion]
    userAnswer := "7 " }

/-- A concrete `finished` session state holding one prior table entry, for
witnesses. -/
def demoFinished : AppState :=
  { initState .missing with
    quizState := .finished
    category := some .Algebra
    difficulty := some .Medium
    score := 3
    highScores := [{ score := 3, category := .Arithmetic, difficulty := .Easy, date := 100 }] }

/-- A concrete event list that drives the machine into `loading`, for
witnesses. -/
def demoLoadingEvents : List Event :=
  [.pickCategory .Arithmetic, .startQuiz .Easy]

/-- The state-indexed invariant of the machine: hint coins stay between 0 and
3, the score is non-negative and bounded by the position in the quiz, setup
states carry a fresh session, and the question index is in range while a
question is displayed. -/
def Inv0 (st : AppState) : Prop :=
  0 ≤ st.hintCoins ∧ st.hintCoins ≤ 3 ∧ 0 ≤ st.score ∧
  (st.quizState = .idle →
    st.score = 0 ∧ st.hintCoins = 3 ∧ st.currentQuestionIndex = 0 ∧ st.questions = []) ∧
  (st.quizState = .loading →
    st.score = 0 ∧ st.hintCoins = 3 ∧ st.currentQuestionIndex = 0 ∧ st.questions = []) ∧
  (st.quizState = .active →
    st.score ≤ (st.currentQuestionIndex : Int) ∧ st.currentQuestionIndex < st.questions.length) ∧
  (st.quizState = .feedback →
    st.score ≤ (st.currentQuestionIndex : Int) + 1 ∧ st.currentQuestionIndex < st.questions.length) ∧
  (st.quizState = .finished → st.score ≤ (st.questions.length : Int))

instance : IsTrans HighScore hsLE := by
  constructor
  intro a b c hab hbc
  unfold hsLE at hab hbc ⊢
  omega

instance : IsTotal HighScore hsLE := by
  constructor
  intro a b
  unfold hsLE
  omega

/-- The updated high-score table never exceeds ten entries. -/
theorem savedTable_length_le (t : List HighScore) (e : HighScore) :
    (savedTable t e).length ≤ 10 := by
  unfold savedTable
  simp [List.length_take]

/-- The updated high-score table is sorted by the comparator order. -/
theorem savedTable_sorted (t : List HighScore) (e : HighScore) :
    (savedTable t e).Sorted hsLE := by
  unfold savedTable
  exact List.Pairwise.sublist (List.take_sublist _ _) (List.sorted_insertionSort hsLE (t ++ [e]))

/-- The invariant holds initially, whatever the storage holds. -/
theorem initState_inv0 (c : StorageContent) : Inv0 (initState c) := by
  simp [Inv0, initState]

/-- A full session reset satisfies the invariant whatever state it starts
from. -/
theorem resetQuiz_inv0 (st : AppState) : Inv0 (resetQuiz st) := by
  simp [Inv0, resetQuiz]

/-- Each transition preserves the invariant. -/
theorem step_inv0 (st : AppState) (e : Event) (h : Inv0 st) : Inv0 (step st e) := by
  cases e with
  | loadScores =>
      show Inv0 (loadEffect st)
      unfold loadEffect
      cases hs : st.storage
      · exact h
      · exact h
      · exact h
  | pickCategory c =>
      simp only [step]
      split
      · exact h
      · exact h
  | backToCategories =>
      simp only [step]
      split
      · exact h
      · exact h
  | startQuiz d =>
      simp only [step]
      split
      · rename_i hg
        simp only [Inv0] at h
        obtain ⟨h1, h2, h3, hidle, hload, hact, hfb, hfin⟩ := h
        have hi := hidle hg.1
        simp only [Inv0, startGenerate]
        exact ⟨h1, h2, h3,
          fun hx => by simp at hx,
          fun hx => hi,
          fun hx => by simp at hx,
          fun hx => by simp at hx,
          fun hx => by simp at hx⟩
      · exact h
  | quizFetched res =>
      simp only [step]
      split
      · rename_i hg
        simp only [Inv0] at h
        obtain ⟨h1, h2, h3, hidle, hload, hact, hfb, hfin⟩ := h
        have hl := hload hg
        cases res with
        | success qs =>
            simp only [finishGenerate]
            split
            · rename_i hq
              simp only [Inv0]
              refine ⟨h1, h2, h3,
                fun hx => by simp at hx,
                fun hx => by simp at hx,
                fun hx => ?_,
                fun hx => by simp at hx,
                fun hx => by simp at hx⟩
              constructor
              · show st.score ≤ (st.currentQuestionIndex : Int)
                omega
              · show st.currentQuestionIndex < qs.length
                omega
            · exact resetQuiz_inv0 st
        | failure => exact resetQuiz_inv0 st
      · exact h
  | typeAnswer s =>
      simp only [step]
      split
      · exact h
      · exact h
  | submitAnswer =>
      simp only [step]
      split
      · rename_i hg
        simp only [Inv0] at h
        obtain ⟨h1, h2, h3, hidle, hload, hact, hfb, hfin⟩ := h
        have ha := hact hg
        unfold handleAnswerSubmit
        split
        · exact ⟨h1, h2, h3, hidle, hload, hact, hfb, hfin⟩
        · split
          · simp only [Inv0]
            refine ⟨h1, h2, by omega,
              fun hx => by simp at hx,
              fun hx => by simp at hx,
              fun hx => by simp at hx,
              fun hx => ?_,
              fun hx => by simp at hx⟩
            constructor
            · show st.score + 1 ≤ (st.currentQuestionIndex : Int) + 1
              omega
            · exact ha.2
          · simp only [Inv0]
            refine ⟨h1, h2, h3,
              fun hx => by simp at hx,
              fun hx => by simp at hx,
              fun hx => by simp at hx,
              fun hx => ?_,
              fun hx => by simp at hx⟩
            constructor
            · show st.score ≤ (st.currentQuestionIndex : Int) + 1
              omega
            · exact ha.2
      · exact h
  | getHint res =>
      simp only [step]
      split
      · rename_i hg
        simp only [Inv0] at h
        obtain ⟨h1, h2, h3, hidle, hload, hact, hfb, hfin⟩ := h
        have ha := hact hg
        unfold handleGetHint
        split
        · exact ⟨h1, h2, h3, hidle, hload, hact, hfb, hfin⟩
        · rename_i hc
          push_neg at hc
          cases res with
          | success text =>
              simp only [Inv0]
              exact ⟨by omega, by omega, h3,
                fun hx => by simp [hg] at hx,
                fun hx => by simp [hg] at hx,
                fun hx => ha,
                fun hx => by simp [hg] at hx,
                fun hx => by simp [hg] at hx⟩
          | failure =>
              simp only [Inv0]
              exact ⟨by omega, by omega, h3,
                fun hx => by simp [hg] at hx,
                fun hx => by simp [hg] at hx,
                fun hx => ha,
                fun hx => by simp [hg] at hx,
                fun hx => by simp [hg] at hx⟩
      · exact h
  | nextQuestion =>
      simp only [step]
      split
      · rename_i hg
        simp only [Inv0] at h
        obtain ⟨h1, h2, h3, hidle, hload, hact, hfb, hfin⟩ := h
        have hf := hfb hg
        unfold handleNextQuestion
        split
        · rename_i hn
          simp only [Inv0]
          refine ⟨h1, h2, h3,
            fun hx => by simp at hx,
            fun hx => by simp at hx,
            fun hx => ?_,
            fun hx => by simp at hx,
            fun hx => by simp at hx⟩
          constructor
          · show st.score ≤ ((st.currentQuestionIndex + 1 : Nat) : Int)
            omega
          · show st.currentQuestionIndex + 1 < st.questions.length
            omega
        · rename_i hn
          simp only [Inv0]
          refine ⟨h1, h2, h3,
            fun hx => by simp at hx,
            fun hx => by simp at hx,
            fun hx => by simp at hx,
            fun hx => by simp at hx,
            fun hx => ?_⟩
          show st.score ≤ (st.questions.length : Int)
          omega
      · exact h
  | saveScore now =>
      simp only [step]
      split
      · split
        · exact h
        · unfold handleSaveScore
          rcases hc2 : st.category with _ | cat
          · exact h
          · rcases hd2 : st.difficulty with _ | diff
            · exact h
            · exact h
      · exact h
  | playAgain =>
      simp only [step]
      split
      · exact resetQuiz_inv0 st
      · exact h
  | clearScores =>
      simp only [step]
      split
      · exact h
      · exact h

/-- The invariant holds after any event sequence from any invariant state. -/
theorem foldl_inv0 (es : List Event) (st : AppState) (h : Inv0 st) :
    Inv0 (es.foldl step st) := by
  induction es generalizing st with
  | nil => exact h
  | cons e es ih => exact ih (step st e) (step_inv0 st e h)

/-- The invariant holds at every reachable state. -/
theorem run_inv0 (c : StorageContent) (es : List Event) : Inv0 (run c es) :=
  foldl_inv0 es (initState c) (initState_inv0 c)

/-- A transition respecting the batch bound keeps at most five questions in
the session. -/
theorem step_questions_le (st : AppState) (e : Event) (hb : eventBounded e = true)
    (h : st.questions.length ≤ 5) : (step st e).questions.length ≤ 5 := by
  cases e with
  | loadScores =>
      show (loadEffect st).questions.length ≤ 5
      unfold loadEffect
      cases hs : st.storage
      · exact h
      · exact h
      · exact h
  | pickCategory c =>
      simp only [step]
      split
      · exact h
      · exact h
  | backToCategories =>
      simp only [step]
      split
      · exact h
      · exact h
  | startQuiz d =>
      simp only [step]
      split
      · exact h
      · exact h
  | quizFetched res =>
      simp only [step]
      split
      · cases res with
        | success qs =>
            simp only [eventBounded, decide_eq_true_eq] at hb
            simp only [finishGenerate]
            split
            · exact hb
            · show (0 : Nat) ≤ 5
              omega
        | failure =>
            show ((0 : Nat) ≤ 5)
            omega
      · exact h
  | typeAnswer s =>
      simp only [step]
      split
      · exact h
      · exact h
  | submitAnswer =>
      simp only [step]
      split
      · unfold handleAnswerSubmit
        split
        · exact h
        · split
          · exact h
          · exact h
      · exact h
  | getHint res =>
      simp only [step]
      split
      · unfold handleGetHint
        split
        · exact h
        · cases res with
          | success text => exact h
          | failure => exact h
      · exact h
  | nextQuestion =>
      simp only [step]
      split
      · unfold handleNextQuestion
        split
        · exact h
        · exact h
      · exact h
  | saveScore now =>
      simp only [step]
      split
      · split
        · exact h
        · unfold handleSaveScore
          rcases hc2 : st.category with _ | cat
          · exact h
          · rcases hd2 : st.difficulty with _ | diff
            · exact h
            · exact h
      · exact h
  | playAgain =>
      simp only [step]
      split
      · show ((0 : Nat) ≤ 5)
        omega
      · exact h
  | clearScores =>
      simp only [step]
      split
      · exact h
      · exact h

/-- An event sequence respecting the batch bound keeps at most five questions
in the session. -/
theorem foldl_questions_le (es : List Event) (st : AppState)
    (hb : ∀ e ∈ es, eventBounded e = true) (h : st.questions.length ≤ 5) :
    (es.foldl step st).questions.length ≤ 5 := by
  induction es generalizing st with
  | nil => exact h
  | cons e es ih =>
      exact ih (step st e) (fun x hx => hb x (List.mem_cons_of_mem e hx))
        (step_questions_le st e (hb e (List.mem_cons_self e es)) h)

/-- Every reachable state of a run whose batches respect the requested size
holds at most five questions. -/
theorem run_questions_le (c : StorageContent) (es : List Event)
    (hb : ∀ e ∈ es, eventBounded e = true) : (run c es).questions.length ≤ 5 :=
  foldl_questions_le es (initState c) hb (by simp [initState])

/-- No single transition ever lowers the score except by resetting it to
zero (the session boundary). -/
theorem step_score_mono (st : AppState) (e : Event) :
    st.score ≤ (step st e).score ∨ (step st e).score = 0 := by
  cases e with
  | loadScores =>
      left
      show st.score ≤ (loadEffect st).score
      unfold loadEffect
      cases hs : st.storage
      · exact le_refl _
      · exact le_refl _
      · exact le_refl _
  | pickCategory c =>
      left
      simp only [step]
      split
      · exact le_refl _
      · exact le_refl _
  | backToCategories =>
      left
      simp only [step]
      split
      · exact le_refl _
      · exact le_refl _
  | startQuiz d =>
      left
      simp only [step]
      split
      · exact le_refl _
      · exact le_refl _
  | quizFetched res =>
      simp only [step]
      split
      · cases res with
        | success qs =>
            simp only [finishGenerate]
            split
            · left
              exact le_refl _
            · right
              rfl
        | failure =>
            right
            rfl
      · left
        exact le_refl _
  | typeAnswer s =>
      left
      simp only [step]
      split
      · exact le_refl _
      · exact le_refl _
  | submitAnswer =>
      left
      simp only [step]
      split
      · unfold handleAnswerSubmit
        split
        · exact le_refl _
        · split
          · show st.score ≤ st.score + 1
            omega
          · exact le_refl _
      · exact le_refl _
  | getHint res =>
      left
      simp only [step]
      split
      · unfold handleGetHint
        split
        · exact le_refl _
        · cases res with
          | success text => exact le_refl _
          | failure => exact le_refl _
      · exact le_refl _
  | nextQuestion =>
      left
      simp only [step]
      split
      · unfold handleNextQuestion
        split
        · exact le_refl _
        · exact le_refl _
      · exact le_refl _
  | saveScore now =>
      left
      simp only [step]
      split
      · split
        · exact le_refl _
        · unfold handleSaveScore
          rcases hc2 : st.category with _ | cat
          · exact le_refl _
          · rcases hd2 : st.difficulty with _ | diff
            · exact le_refl _
            · exact le_refl _
      · exact le_refl _
  | playAgain =>
      simp only [step]
      split
      · right
        rfl
      · left
        exact le_refl _
  | clearScores =>
      left
      simp only [step]
      split
      · exact le_refl _
      · exact le_refl _

/-- C1: a non-empty submission is judged correct if and only if the trimmed,
case-folded user input equals the trimmed, case-folded stored answer; a
correct judgement adds exactly one point; in particular "7 " matches "7"
and "7.0" does not, with no numeric parsing or tolerance. -/
theorem answer_judged_iff_trim_fold_equal (st : AppState) (h : jsTrim st.userAnswer ≠ "") :
    ((handleAnswerSubmit st).feedback = some { message := "Correct!", correct := true }
        ↔ jsToLower (jsTrim st.userAnswer) = jsToLower (jsTrim (currentAnswer st)))
  ∧ ((handleAnswerSubmit st).feedback = some { message := "Correct!", correct := true }
        → (handleAnswerSubmit st).score = st.score + 1)
  ∧ checkAnswer "7 " "7" = true
  ∧ checkAnswer "7.0" "7" = false := by
  unfold handleAnswerSubmit
  rw [if_neg h]
  by_cases hc : checkAnswer st.userAnswer (currentAnswer st) = true
  · rw [if_pos hc]
    refine ⟨?_, fun _ => rfl, by decide, by decide⟩
    constructor
    · intro _
      unfold checkAnswer at hc
      exact eq_of_beq hc
    · intro _
      rfl
  · rw [if_neg hc]
    refine ⟨?_, ?_, by decide, by decide⟩
    · constructor
      · intro hx
        simp at hx
      · intro hx
        exact absurd (show checkAnswer st.userAnswer (currentAnswer st) = true by
          unfold checkAnswer; exact beq_iff_eq.mpr hx) hc
    · intro hx
      simp at hx

/-- Witness for C1: in the demo state the user typed "7 " against the stored
answer "7" and is judged correct with one point added. -/
theorem answer_judged_iff_trim_fold_equal_witness :
    (handleAnswerSubmit demoActive).feedback = some { message := "Correct!", correct := true }
  ∧ (handleAnswerSubmit demoActive).score = demoActive.score + 1 := by
  have h := answer_judged_iff_trim_fold_equal demoActive (by decide)
  have hfb := h.1.mpr (by decide)
  exact ⟨hfb, h.2.1 hfb⟩

/-- C10: submitting an answer whose trimmed form is empty is a complete
no-op: the handler returns the state unchanged, and so does the machine
step, whatever the current state is. -/
theorem empty_submit_noop (st : AppState) (h : jsTrim st.userAnswer = "") :
    handleAnswerSubmit st = st ∧ step st .submitAnswer = st := by
  have h1 : handleAnswerSubmit st = st := by
    unfold handleAnswerSubmit
    rw [if_pos h]
  refine ⟨h1, ?_⟩
  simp only [step]
  split
  · exact h1
  · rfl

/-- Witness for C10: a whitespace-only submission in the demo active state
changes nothing. -/
theorem empty_submit_noop_witness :
    step { demoActive with userAnswer := "   " } .submitAnswer
      = { demoActive with userAnswer := "   " } :=
  (empty_submit_noop { demoActive with userAnswer := "   " } (by decide)).2

/-- C8: once the hint for the current question has been granted
(`hintUsed = true`), a further hint request is a complete no-op: the budget
is not decremented again and the stored hint text is unchanged. -/
theorem hint_second_request_noop (st : AppState) (res : FetchResult String)
    (h : st.hintUsed = true) :
    handleGetHint st res = st ∧ step st (.getHint res) = st := by
  have h1 : handleGetHint st res = st := by
    unfold handleGetHint
    rw [if_pos (Or.inr h)]
  refine ⟨h1, ?_⟩
  simp only [step]
  split
  · exact h1
  · rfl

/-- Witness for C8: a second hint request in the demo state with the latch
set leaves the state unchanged. -/
theorem hint_second_request_noop_witness :
    step { demoActive with hintUsed := true } (.getHint (.success "Think of addition."))
      = { demoActive with hintUsed := true } :=
  (hint_second_request_noop { demoActive with hintUsed := true }
    (.success "Think of addition.") rfl).2

/-- C2: in the `active` state a hint request is granted only when the budget
is positive and the latch is clear; when granted, the budget drops by
exactly 1 and the latch is set, whatever the fetch outcome; on fetch success
the fetched text is stored, on fetch failure the apology string is stored
(the budget is still spent). -/
theorem hint_grant_spec (st : AppState) (res : FetchResult String)
    (ha : st.quizState = .active) :
    (st.hintCoins ≤ 0 ∨ st.hintUsed = true → step st (.getHint res) = st)
  ∧ (0 < st.hintCoins → st.hintUsed = false →
        (step st (.getHint res)).hintCoins = st.hintCoins - 1
      ∧ (step st (.getHint res)).hintUsed = true
      ∧ (∀ t, res = .success t → (step st (.getHint res)).hint = some t)
      ∧ (res = .failure → (step st (.getHint res)).hint = some hintApology)) := by
  have hstep : step st (.getHint res) = handleGetHint st res := by
    simp only [step]
    rw [if_pos ha]
  constructor
  · intro hc
    rw [hstep]
    unfold handleGetHint
    rw [if_pos hc]
  · intro hc hu
    have hcond : ¬(st.hintCoins ≤ 0 ∨ st.hintUsed = true) := by
      rintro (hx | hx)
      · omega
      · simp [hu] at hx
    rw [hstep]
    unfold handleGetHint
    rw [if_neg hcond]
    cases res with
    | success t =>
        refine ⟨rfl, rfl, fun t2 ht => ?_, fun hf => FetchResult.noConfusion hf⟩
        cases ht
        rfl
    | failure =>
        exact ⟨rfl, rfl, fun t2 ht => FetchResult.noConfusion ht, fun _ => rfl⟩

/-- Witness for C2: in the demo active state (budget 3, latch clear) a failed
hint fetch still spends one coin and stores the apology text. -/
theorem hint_grant_spec_witness :
    0 < demoActive.hintCoins
  ∧ (step demoActive (.getHint .failure)).hintCoins = demoActive.hintCoins - 1
  ∧ (step demoActive (.getHint .failure)).hint = some hintApology := by
  have h := (hint_grant_spec demoActive .failure rfl).2 (by decide) rfl
  exact ⟨by decide, h.1, h.2.2.2 rfl⟩

/-- C3: the save-score operation is idempotent at the machine level: a
second save request after any first one leaves the whole state, the
high-score table and the persistent storage unchanged (after a successful
save the `scoreSaved` flag disables the button). -/
theorem save_score_idempotent (st : AppState) (n1 n2 : Int) :
    step (step st (.saveScore n1)) (.saveScore n2) = step st (.saveScore n1) := by
  by_cases hf : st.quizState = .finished
  · by_cases hs : st.scoreSaved = true
    · have h1 : step st (.saveScore n1) = st := by
        simp only [step]
        rw [if_pos hf, if_pos hs]
      rw [h1]
      simp only [step]
      rw [if_pos hf, if_pos hs]
    · have hs2 : st.scoreSaved = false := by
        simp at hs
        exact hs
      rcases hcat : st.category with _ | cat
      · have h1 : step st (.saveScore n1) = st := by
          simp only [step]
          rw [if_pos hf, if_neg (by simp [hs2])]
          simp [handleSaveScore, hcat]
        rw [h1]
        simp only [step]
        rw [if_pos hf, if_neg (by simp [hs2])]
        simp [handleSaveScore, hcat]
      · rcases hdiff : st.difficulty with _ | diff
        · have h1 : step st (.saveScore n1) = st := by
            simp only [step]
            rw [if_pos hf, if_neg (by simp [hs2])]
            simp [handleSaveScore, hcat, hdiff]
          rw [h1]
          simp only [step]
          rw [if_pos hf, if_neg (by simp [hs2])]
          simp [handleSaveScore, hcat, hdiff]
        · have h1 : step st (.saveScore n1) = handleSaveScore st n1 := by
            simp only [step]
            rw [if_pos hf, if_neg (by simp [hs2])]
          have h2 : (handleSaveScore st n1).quizState = .finished := by
            simp [handleSaveScore, hcat, hdiff, hf]
          have h3 : (handleSaveScore st n1).scoreSaved = true := by
            simp [handleSaveScore, hcat, hdiff]
          rw [h1]
          simp only [step]
          rw [if_pos h2, if_pos h3]
  · have h1 : step st (.saveScore n1) = st := by
      simp only [step]
      rw [if_neg hf]
    rw [h1]
    simp only [step]
    rw [if_neg hf]

/-- C9: clearing the scores empties the in-memory table and removes the
storage entry, and a load over the resulting storage yields an empty
table. -/
theorem clear_then_load_empty (st : AppState) :
    (handleClearScores st).highScores = []
  ∧ (handleClearScores st).storage = .missing
  ∧ (loadEffect (initState (handleClearScores st).storage)).highScores = [] :=
  ⟨rfl, rfl, rfl⟩

/-- C7: the load effect is total and returns the parsed table on good data
and the empty table on missing or corrupt data; it never raises (it is a
total function of the storage content). -/
theorem load_total_empty_on_bad (c : StorageContent) :
    (c = .missing ∨ c = .corrupt →
        loadEffect (initState c) = initState c
      ∧ (loadEffect (initState c)).highScores = [])
  ∧ (∀ l, c = .table l → (loadEffect (initState c)).highScores = l) := by
  cases c with
  | missing => exact ⟨fun _ => ⟨rfl, rfl⟩, fun l hl => StorageContent.noConfusion hl⟩
  | corrupt => exact ⟨fun _ => ⟨rfl, rfl⟩, fun l hl => StorageContent.noConfusion hl⟩
  | table l0 =>
      refine ⟨fun hx => ?_, fun l hl => ?_⟩
      · rcases hx with hx | hx
        · exact StorageContent.noConfusion hx
        · exact StorageContent.noConfusion hx
      · cases hl
        rfl

/-- Witness for C7: loading over a corrupt entry yields the empty table. -/
theorem load_total_empty_on_bad_witness :
    (loadEffect (initState .corrupt)).highScores = [] :=
  ((load_total_empty_on_bad .corrupt).1 (Or.inr rfl)).2

/-- C4: after a save in a session with a category and difficulty set, the
table has at most ten entries and is sorted descending by score with ties
broken by descending timestamp; two entries of equal score are ordered most
recent first. -/
theorem save_table_sorted_bounded (st : AppState) (now : Int)
    (cat : Category) (diff : Difficulty)
    (hc : st.category = some cat) (hd : st.difficulty = some diff) :
    ((handleSaveScore st now).highScores.length ≤ 10
  ∧ (handleSaveScore st now).highScores.Sorted hsLE)
  ∧ (∀ a b : HighScore, a.score = b.score → a.date < b.date →
       savedTable [a] b = [b, a]) := by
  have hrw : (handleSaveScore st now).highScores =
      savedTable st.highScores
        { score := st.score, category := cat, difficulty := diff, date := now } := by
    simp [handleSaveScore, hc, hd]
  refine ⟨⟨?_, ?_⟩, ?_⟩
  · rw [hrw]
    exact savedTable_length_le _ _
  · rw [hrw]
    exact savedTable_sorted _ _
  · intro a b hsc hdt
    have hnot : ¬ hsLE a b := by
      unfold hsLE
      omega
    unfold savedTable
    simp [List.insertionSort, List.orderedInsert, hnot]

/-- Witness for C4: saving score 3 at time 200 over a stored score 3 of time
100 keeps the table within bounds, and the tie orders the later entry
first. -/
theorem save_table_sorted_bounded_witness :
    (handleSaveScore demoFinished 200).highScores.length ≤ 10
  ∧ savedTable
      [{ score := 3, category := Category.Arithmetic, difficulty := Difficulty.Easy, date := 100 }]
      { score := 3, category := Category.Algebra, difficulty := Difficulty.Medium, date := 200 } =
      [{ score := 3, category := Category.Algebra, difficulty := Difficulty.Medium, date := 200 },
       { score := 3, category := Category.Arithmetic, difficulty := Difficulty.Easy, date := 100 }] := by
  have h := save_table_sorted_bounded demoFinished 200 .Algebra .Medium rfl rfl
  exact ⟨h.1.1, h.2 _ _ rfl (by decide)⟩

/-- C5: over any run whose question batches respect the requested size, the
score stays in [0, 5] and the hint budget in [0, 3] at every reachable
state, the budget starts at 3, and no single step lowers the score other
than a session reset to zero. -/
theorem session_score_hint_invariants (c : StorageContent) (es : List Event)
    (hb : ∀ e ∈ es, eventBounded e = true) :
    (0 ≤ (run c es).score ∧ (run c es).score ≤ 5
  ∧ 0 ≤ (run c es).hintCoins ∧ (run c es).hintCoins ≤ 3)
  ∧ (initState c).hintCoins = 3
  ∧ (∀ e : Event,
       (run c es).score ≤ (step (run c es) e).score ∨ (step (run c es) e).score = 0) := by
  have hinv := run_inv0 c es
  have hlen := run_questions_le c es hb
  simp only [Inv0] at hinv
  obtain ⟨h1, h2, h3, hidle, hload, hact, hfb, hfin⟩ := hinv
  refine ⟨⟨h3, ?_, h1, h2⟩, rfl, fun e => step_score_mono (run c es) e⟩
  cases hq : (run c es).quizState with
  | idle =>
      have := hidle hq
      omega
  | loading =>
      have := hload hq
      omega
  | active =>
      have := hact hq
      omega
  | feedback =>
      have := hfb hq
      omega
  | finished =>
      have := hfin hq
      omega

/-- Witness for C5: a concrete three-event run (category, difficulty, a
one-question batch) keeps the bounds. -/
theorem session_score_hint_invariants_witness :
    0 ≤ (run .missing
          [Event.pickCategory .Arithmetic, Event.startQuiz .Easy,
           Event.quizFetched (.success [demoQuestion])]).score
  ∧ (run .missing
          [Event.pickCategory .Arithmetic, Event.startQuiz .Easy,
           Event.quizFetched (.success [demoQuestion])]).score ≤ 5 := by
  have h := session_score_hint_invariants .missing
    [Event.pickCategory .Arithmetic, Event.startQuiz .Easy,
     Event.quizFetched (.success [demoQuestion])] (by decide)
  exact ⟨h.1.1, h.1.2.1⟩

/-- C6: from any reachable `loading` state, a successful fetch with at least
one question activates the quiz at index 0 with score 0 and budget 3, while
a failed or empty fetch performs a full reset to `idle` (category,
difficulty, score, hints, questions, answer and feedback all cleared) and
raises the generation-error notice. -/
theorem loading_fetch_outcome (c : StorageContent) (es : List Event)
    (h : (run c es).quizState = .loading) :
    (∀ qs : List Question, qs ≠ [] →
        (step (run c es) (.quizFetched (.success qs))).quizState = .active
      ∧ (step (run c es) (.quizFetched (.success qs))).questions = qs
      ∧ (step (run c es) (.quizFetched (.success qs))).currentQuestionIndex = 0
      ∧ (step (run c es) (.quizFetched (.success qs))).score = 0
      ∧ (step (run c es) (.quizFetched (.success qs))).hintCoins = 3)
  ∧ (∀ res : FetchResult (List Question), res = .failure ∨ res = .success [] →
        (step (run c es) (.quizFetched res)).quizState = .idle
      ∧ (step (run c es) (.quizFetched res)).category = none
      ∧ (step (run c es) (.quizFetched res)).difficulty = none
      ∧ (step (run c es) (.quizFetched res)).score = 0
      ∧ (step (run c es) (.quizFetched res)).hintCoins = 3
      ∧ (step (run c es) (.quizFetched res)).hint = none
      ∧ (step (run c es) (.quizFetched res)).hintUsed = false
      ∧ (step (run c es) (.quizFetched res)).questions = []
      ∧ (step (run c es) (.quizFetched res)).userAnswer = ""
      ∧ (step (run c es) (.quizFetched res)).feedback = none
      ∧ (step (run c es) (.quizFetched res)).lastAlert = some generationErrorMsg) := by
  have hinv := run_inv0 c es
  simp only [Inv0] at hinv
  obtain ⟨h1, h2, h3, hidle, hload, hact, hfb, hfin⟩ := hinv
  have hl := hload h
  constructor
  · intro qs hqs
    have hstep : step (run c es) (.quizFetched (.success qs)) =
        { run c es with questions := qs, quizState := .active } := by
      simp only [step]
      rw [if_pos h]
      simp only [finishGenerate]
      rw [if_pos (List.length_pos.mpr hqs)]
    rw [hstep]
    exact ⟨rfl, rfl, hl.2.2.1, hl.1, hl.2.1⟩
  · intro res hres
    have hstep : step (run c es) (.quizFetched res) =
        { resetQuiz (run c es) with lastAlert := some generationErrorMsg } := by
      rcases hres with rfl | rfl
      · simp only [step]
        rw [if_pos h]
        rfl
      · simp only [step]
        rw [if_pos h]
        simp only [finishGenerate]
        rw [if_neg (by simp)]
    rw [hstep]
    exact ⟨rfl, rfl, rfl, rfl, rfl, rfl, rfl, rfl, rfl, rfl, rfl⟩

/-- Witness for C6: after picking Arithmetic/Easy the machine is loading; a
failed fetch lands in `idle` with the notice set, a one-question success
activates the quiz. -/
theorem loading_fetch_outcome_witness :
    (step (run .missing demoLoadingEvents) (.quizFetched .failure)).quizState = .idle
  ∧ (step (run .missing demoLoadingEvents) (.quizFetched .failure)).lastAlert
      = some generationErrorMsg
  ∧ (step (run .missing demoLoadingEvents) (.quizFetched (.success [demoQuestion]))).quizState
      = .active := by
  have h := loading_fetch_outcome .missing demoLoadingEvents (by decide)
  refine ⟨(h.2 .failure (Or.inl rfl)).1, ?_, (h.1 [demoQuestion] (by simp)).1⟩
  exact (h.2 .failure (Or.inl rfl)).2.2.2.2.2.2.2.2.2.2
